import Mathlib

/-!
Shallow embedding of the `ratelimiter` crate (src/nanos.rs, src/clock.rs,
src/main.rs): a fixed-window rate limiter driven by a clock abstraction.
Machine integers (u64) are modelled as `Nat`; the only operations where
overflow matters (`Nanos + Nanos` from nanos.rs and `prev + by` inside
`FakeRelativeClock::advance`) are taken modulo 2^64, matching release-mode
wrapping semantics of Rust's `+` on u64.
-/

/-- The size of the u64 value space, 2^64. -/
def U64SIZE : Nat := 2 ^ 64

/-- Model of `Nanos(u64)` from src/nanos.rs: a nanosecond count stored in a u64.
The wrapped value is a `Nat`; every value produced by the Rust code is < 2^64. -/
structure Nanos where
  val : Nat
deriving DecidableEq, Repr

/-- Model of `impl Add<Self> for Nanos` (src/nanos.rs): `Self(self.0 + rhs.0)`,
an unchecked u64 addition, which in release builds wraps modulo 2^64. -/
def Nanos.add (a b : Nanos) : Nanos :=
  ⟨(a.val + b.val) % U64SIZE⟩

/-- Model of `Nanos::saturating_sub` (src/nanos.rs): `u64::saturating_sub`,
which is exactly truncated subtraction on `Nat`. -/
def Nanos.saturating_sub (a b : Nanos) : Nanos :=
  ⟨a.val - b.val⟩

/-- Model of `impl clock::Reference for Nanos`: `duration_since` is
`saturating_sub` (src/nanos.rs). -/
def Nanos.duration_since (a earlier : Nanos) : Nanos :=
  a.saturating_sub earlier

/-- Model of `std::time::Instant` for `impl Reference for Instant`
(src/clock.rs). An `Instant` is opaque in Rust; we model it as the number of
nanoseconds since the domain's minimum representable instant, so the minimum
instant is `0`. `checked_sub` returns `none` exactly when the result would
fall before the minimum. -/
def Instant.checked_sub (t d : Nat) : Option Nat :=
  if d ≤ t then some (t - d) else none

/-- Model of `Reference::saturating_sub for Instant` (src/clock.rs):
`self.checked_sub(duration.into()).unwrap_or(*self)` — on underflow it
returns the original instant, not the domain minimum. -/
def Instant.saturating_sub (t d : Nat) : Nat :=
  (Instant.checked_sub t d).getD t

/-- Model of `Reference::duration_since for Instant` (src/clock.rs):
`if earlier < *self { *self - earlier } else { 0 }`. -/
def Instant.duration_since (t earlier : Nat) : Nat :=
  if earlier < t then t - earlier else 0

/-- Model of `State<C>` (src/main.rs) specialised to `C = FakeRelativeClock`,
whose `Instant` type is `Nanos`. The clock itself is kept outside the
structure: `acquire` takes the clock reading `now` explicitly. Fields keep the
source's names: `last_update` is the window start, `acquired` the consumed
count, `duration_nano` the window length, `allowed` the capacity. -/
structure State where
  last_update : Nanos
  acquired : Nat
  duration_nano : Nanos
  allowed : Nat
deriving DecidableEq, Repr

/-- The first half of `State::acquire` (src/main.rs lines 61-67): compute
`elapsed = now.duration_since(self.last_update)` and, if
`elapsed >= self.duration_nano`, reset `last_update := now`, `acquired := 0`. -/
def State.resetIfExpired (s : State) (now : Nanos) : State :=
  if s.duration_nano.val ≤ (now.duration_since s.last_update).val then
    { s with last_update := now, acquired := 0 }
  else s

/-- The second half of `State::acquire` (src/main.rs lines 68-73): if
`acquired < allowed`, increment `acquired` and return `true`, else `false`. -/
def State.tryConsume (s : State) : Bool × State :=
  if s.acquired < s.allowed then
    (true, { s with acquired := s.acquired + 1 })
  else
    (false, s)

/-- Model of `State::acquire` (src/main.rs lines 61-74): the reset phase
followed by the consume phase. Returns the admission decision and the updated
state. -/
def State.acquire (s : State) (now : Nanos) : Bool × State :=
  (s.resetIfExpired now).tryConsume

/-- Run a sequence of `acquire` calls; `nows` is the list of successive
clock readings, one per call. Returns the list of decisions and the final
state. -/
def State.acquireSeq (s : State) : List Nanos → List Bool × State
  | [] => ([], s)
  | now :: rest =>
      let r := s.acquire now
      let rs := r.2.acquireSeq rest
      (r.1 :: rs.1, rs.2)

/-- Model of `RateLimiter<C>` (src/main.rs) specialised to the fake clock.
The `HashMap<String, State>` is modelled as an association list with at most
one binding used per key (lookup and in-place update both act on the first
matching binding, as `get_mut` does on the map's unique binding). -/
structure RateLimiter where
  inner_state : List (String × State)
  base_state : State
deriving DecidableEq, Repr

/-- Lookup in the keyed registry: model of `self.inner_state.get_mut(key)`'s
read part. -/
def findState : List (String × State) → String → Option State
  | [], _ => none
  | (k, s) :: rest, key => if k = key then some s else findState rest key

/-- In-place update of the first binding of `key`: model of writing through
`get_mut`. Leaves the list unchanged when the key is absent. -/
def updateState : List (String × State) → String → State → List (String × State)
  | [], _, _ => []
  | (k, s) :: rest, key, s' =>
      if k = key then (k, s') :: rest else (k, s) :: updateState rest key s'

/-- Model of `RateLimiter::insert_key` (src/main.rs): registers or replaces
the counter for `key` (HashMap insert is last-write-wins). -/
def RateLimiter.insert_key (rl : RateLimiter) (key : String) (st : State) :
    RateLimiter :=
  match findState rl.inner_state key with
  | some _ => { rl with inner_state := updateState rl.inner_state key st }
  | none => { rl with inner_state := rl.inner_state ++ [(key, st)] }

/-- Model of `RateLimiter::acquire` (src/main.rs): delegates to the base
counter. -/
def RateLimiter.acquire (rl : RateLimiter) (now : Nanos) : Bool × RateLimiter :=
  let r := rl.base_state.acquire now
  (r.1, { rl with base_state := r.2 })

/-- Model of `RateLimiter::acquire_by_key` (src/main.rs lines 32-36):
`self.inner_state.get_mut(key).map_or(false, |state| state.acquire())`.
`now` is the shared clock's current reading. -/
def RateLimiter.acquire_by_key (rl : RateLimiter) (key : String) (now : Nanos) :
    Bool × RateLimiter :=
  match findState rl.inner_state key with
  | none => (false, rl)
  | some s =>
      let r := s.acquire now
      (r.1, { rl with inner_state := updateState rl.inner_state key r.2 })

-- Basic frame lemmas about `acquire`, shared by several claims below.

lemma State.acquire_allowed_eq (s : State) (now : Nanos) :
    (s.acquire now).2.allowed = s.allowed := by
  unfold State.acquire State.resetIfExpired State.tryConsume
  split <;> split <;> rfl

lemma State.acquire_duration_eq (s : State) (now : Nanos) :
    (s.acquire now).2.duration_nano = s.duration_nano := by
  unfold State.acquire State.resetIfExpired State.tryConsume
  split <;> split <;> rfl


-- C1: exhausting the window quota by back-to-back calls.

lemma acquireSeq_const_now (W t0 : Nat) (hW : 1 ≤ W) :
    ∀ n k, (State.acquireSeq ⟨⟨t0⟩, k, ⟨W⟩, k + n⟩
        (List.replicate (n + 1) ⟨t0⟩)).1 = List.replicate n true ++ [false] := by
  intro n
  induction n with
  | zero =>
      intro k
      simp only [List.replicate, State.acquireSeq, State.acquire,
        State.resetIfExpired, State.tryConsume, Nanos.duration_since,
        Nanos.saturating_sub]
      have h1 : ¬ W ≤ t0 - t0 := by omega
      have h0 : ¬ W = 0 := by omega
      have h2 : ¬ k < k + 0 := by omega
      simp [h1, h0, h2, State.acquireSeq]
  | succ n ih =>
      intro k
      have hstep : (State.acquire ⟨⟨t0⟩, k, ⟨W⟩, k + (n + 1)⟩ ⟨t0⟩)
          = (true, ⟨⟨t0⟩, k + 1, ⟨W⟩, k + (n + 1)⟩) := by
        simp only [State.acquire, State.resetIfExpired, State.tryConsume,
          Nanos.duration_since, Nanos.saturating_sub]
        have h1 : ¬ W ≤ t0 - t0 := by omega
        have h0 : ¬ W = 0 := by omega
        have h2 : k < k + (n + 1) := by omega
        simp [h1, h0, h2]
      have harith : k + (n + 1) = (k + 1) + n := by omega
      calc (State.acquireSeq ⟨⟨t0⟩, k, ⟨W⟩, k + (n + 1)⟩
              (List.replicate (n + 1 + 1) ⟨t0⟩)).1
          = true :: (State.acquireSeq ⟨⟨t0⟩, k + 1, ⟨W⟩, k + (n + 1)⟩
              (List.replicate (n + 1) ⟨t0⟩)).1 := by
            simp only [List.replicate, State.acquireSeq, hstep]
        _ = true :: (List.replicate n true ++ [false]) := by
            rw [harith]; rw [ih (k + 1)]
        _ = List.replicate (n + 1) true ++ [false] := by
            simp [List.replicate]

/-- Claim C1: for a fresh window counter with capacity `C ≥ 1` and window
length `W`, making `C + 1` acquire calls in immediate succession (all at the
same clock reading `t0` the counter was created at, so elapsed = 0 < W)
admits the first `C` calls and rejects the `(C+1)`-th. -/
theorem C1_full_window_admits_then_rejects (C W t0 : Nat)
    (hC : 1 ≤ C) (hW : 1 ≤ W) :
    (State.acquireSeq ⟨⟨t0⟩, 0, ⟨W⟩, C⟩ (List.replicate (C + 1) ⟨t0⟩)).1
      = List.replicate C true ++ [false] := by
  have h := acquireSeq_const_now W t0 hW C 0
  simpa using h

/-- Witness for C1 at C = 2, W = 5, t0 = 0. -/
theorem C1_full_window_admits_then_rejects_witness :
    (State.acquireSeq ⟨⟨0⟩, 0, ⟨5⟩, 2⟩ (List.replicate 3 ⟨0⟩)).1
      = List.replicate 2 true ++ [false] :=
  C1_full_window_admits_then_rejects 2 5 0 (by decide) (by decide)

/-- Claim C2: the window resets exactly when `elapsed >= window_length`.
A call with elapsed time exactly equal to `window_length` does reset the
window (it sets `last_update := now` and `acquired := 0`); a call with
elapsed time strictly below `window_length` never resets the window, and on
an exhausted counter (`allowed <= acquired`) it still rejects and leaves the
whole state unchanged. -/
theorem C2_reset_exactly_at_boundary (s : State) (now : Nanos) :
    (s.duration_nano.val ≤ (now.duration_since s.last_update).val →
      s.resetIfExpired now = { s with last_update := now, acquired := 0 }) ∧
    ((now.duration_since s.last_update).val < s.duration_nano.val →
      s.resetIfExpired now = s ∧
      (s.allowed ≤ s.acquired → s.acquire now = (false, s))) := by
  refine ⟨fun hge => ?_, fun hlt => ⟨?_, fun hex => ?_⟩⟩
  · unfold State.resetIfExpired
    simp [hge]
  · unfold State.resetIfExpired
    simp [Nat.not_le.mpr hlt]
  · have hreset : s.resetIfExpired now = s := by
      unfold State.resetIfExpired
      simp [Nat.not_le.mpr hlt]
    unfold State.acquire
    rw [hreset]
    unfold State.tryConsume
    simp [Nat.not_lt.mpr hex]

/-- Witness for C2: boundary case at elapsed = window = 5 resets; elapsed = 3
below window = 5 on an exhausted counter rejects without change. -/
theorem C2_reset_exactly_at_boundary_witness :
    ((State.mk ⟨0⟩ 2 ⟨5⟩ 2).resetIfExpired ⟨5⟩ = State.mk ⟨5⟩ 0 ⟨5⟩ 2) ∧
    ((State.mk ⟨0⟩ 2 ⟨5⟩ 2).resetIfExpired ⟨3⟩ = State.mk ⟨0⟩ 2 ⟨5⟩ 2) ∧
    ((State.mk ⟨0⟩ 2 ⟨5⟩ 2).acquire ⟨3⟩ = (false, State.mk ⟨0⟩ 2 ⟨5⟩ 2)) := by
  refine ⟨(C2_reset_exactly_at_boundary (State.mk ⟨0⟩ 2 ⟨5⟩ 2) ⟨5⟩).1 (by decide),
    ((C2_reset_exactly_at_boundary (State.mk ⟨0⟩ 2 ⟨5⟩ 2) ⟨3⟩).2 (by decide)).1,
    ((C2_reset_exactly_at_boundary (State.mk ⟨0⟩ 2 ⟨5⟩ 2) ⟨3⟩).2 (by decide)).2
      (by decide)⟩

-- C3: capacity 0 rejects every call of every sequence.

lemma acquireSeq_zero_allowed (nows : List Nanos) :
    ∀ s : State, s.allowed = 0 → s.acquired = 0 →
      (s.acquireSeq nows).1 = List.replicate nows.length false ∧
      (s.acquireSeq nows).2.acquired = 0 := by
  induction nows with
  | nil =>
      intro s h h0
      simp [State.acquireSeq, h0]
  | cons now rest ih =>
      intro s h h0
      have h1 : (s.resetIfExpired now).allowed = 0 := by
        unfold State.resetIfExpired
        split <;> simp [h]
      have h2 : (s.resetIfExpired now).acquired = 0 := by
        unfold State.resetIfExpired
        split <;> simp [h0]
      have hstep : s.acquire now = (false, s.resetIfExpired now) := by
        unfold State.acquire State.tryConsume
        simp [h1, h2]
      have hrest := ih (s.resetIfExpired now) h1 h2
      simp only [State.acquireSeq, hstep]
      exact ⟨by simp [hrest.1, List.replicate], hrest.2⟩

/-- Claim C3: a counter with capacity 0 rejects every call of every acquire
sequence (the consumed count stays 0 throughout), yet window resets still
occur: on any single call with `elapsed >= window_length` the state becomes
`last_update = now`, `acquired = 0`. -/
theorem C3_zero_capacity_always_rejects (s : State) (nows : List Nanos)
    (hcap : s.allowed = 0) (h0 : s.acquired = 0) :
    (s.acquireSeq nows).1 = List.replicate nows.length false ∧
    (s.acquireSeq nows).2.acquired = 0 ∧
    (∀ now : Nanos,
      s.duration_nano.val ≤ (now.duration_since s.last_update).val →
      (s.acquire now).2 = { s with last_update := now, acquired := 0 }) := by
  refine ⟨(acquireSeq_zero_allowed nows s hcap h0).1,
    (acquireSeq_zero_allowed nows s hcap h0).2, fun now hge => ?_⟩
  have hreset : s.resetIfExpired now = { s with last_update := now, acquired := 0 } := by
    unfold State.resetIfExpired
    simp [hge]
  unfold State.acquire
  rw [hreset]
  unfold State.tryConsume
  simp [hcap]

/-- Witness for C3 at a capacity-0 counter, three calls with advancing time. -/
theorem C3_zero_capacity_always_rejects_witness :
    ((State.mk ⟨0⟩ 0 ⟨5⟩ 0).acquireSeq [⟨0⟩, ⟨7⟩, ⟨20⟩]).1
        = List.replicate 3 false ∧
    ((State.mk ⟨0⟩ 0 ⟨5⟩ 0).acquire ⟨7⟩).2 = State.mk ⟨7⟩ 0 ⟨5⟩ 0 := by
  have h := C3_zero_capacity_always_rejects (State.mk ⟨0⟩ 0 ⟨5⟩ 0)
    [⟨0⟩, ⟨7⟩, ⟨20⟩] (by decide) (by decide)
  exact ⟨h.1, h.2.2 ⟨7⟩ (by decide)⟩

/-- Claim C4: after any completed acquire call, `acquired <= allowed` holds
(given it held before the call, as it does from construction on), and
`last_update` never moves backward, assuming the clock readings are
nondecreasing (`last_update <= now` at the call). -/
theorem C4_consumed_le_capacity_and_window_monotone (s : State) (now : Nanos)
    (hinv : s.acquired ≤ s.allowed) (hmono : s.last_update.val ≤ now.val) :
    (s.acquire now).2.acquired ≤ (s.acquire now).2.allowed ∧
    s.last_update.val ≤ (s.acquire now).2.last_update.val := by
  unfold State.acquire State.resetIfExpired State.tryConsume
  split
  · split
    · exact ⟨by simpa using ‹(0:Nat) < s.allowed›, by simpa using hmono⟩
    · exact ⟨by simp, by simpa using hmono⟩
  · split
    · exact ⟨by simpa using ‹s.acquired < s.allowed›, by simp⟩
    · exact ⟨by simpa using hinv, by simp⟩

/-- Witness for C4 at a half-consumed counter crossing the boundary. -/
theorem C4_consumed_le_capacity_and_window_monotone_witness :
    ((State.mk ⟨0⟩ 1 ⟨5⟩ 2).acquire ⟨9⟩).2.acquired
        ≤ ((State.mk ⟨0⟩ 1 ⟨5⟩ 2).acquire ⟨9⟩).2.allowed ∧
    (0:Nat) ≤ ((State.mk ⟨0⟩ 1 ⟨5⟩ 2).acquire ⟨9⟩).2.last_update.val :=
  C4_consumed_le_capacity_and_window_monotone (State.mk ⟨0⟩ 1 ⟨5⟩ 2) ⟨9⟩
    (by decide) (by decide)

/-- Counterexample to claim C6 as stated: for the capacity-0 counter
`{last_update = 0, acquired = 0, window = 5, allowed = 0}` and clock reading
10, acquire returns `false` yet `last_update` changes from 0 to 10 (the
rejecting call also reset the window). -/
theorem C6_reject_frame_counterexample :
    ((State.mk ⟨0⟩ 0 ⟨5⟩ 0).acquire ⟨10⟩).1 = false ∧
    ¬ ((State.mk ⟨0⟩ 0 ⟨5⟩ 0).acquire ⟨10⟩).2.last_update
        = (State.mk ⟨0⟩ 0 ⟨5⟩ 0).last_update := by
  decide

/-- Claim C6, amended: whenever acquire returns `false` and the call did not
reset the window (elapsed < window_length), the state is unchanged; when a
rejecting call does cross the window boundary, the capacity must be 0 and the
state after the call is exactly the reset state (`last_update = now`,
`acquired = 0`). -/
theorem C6_reject_leaves_state_unchanged (s : State) (now : Nanos)
    (hrej : (s.acquire now).1 = false) :
    ((now.duration_since s.last_update).val < s.duration_nano.val →
      (s.acquire now).2 = s) ∧
    (s.duration_nano.val ≤ (now.duration_since s.last_update).val →
      s.allowed = 0 ∧
      (s.acquire now).2 = { s with last_update := now, acquired := 0 }) := by
  constructor
  · intro hlt
    have hreset : s.resetIfExpired now = s := by
      unfold State.resetIfExpired
      simp [Nat.not_le.mpr hlt]
    unfold State.acquire at hrej ⊢
    rw [hreset] at hrej ⊢
    unfold State.tryConsume at hrej ⊢
    by_cases h : s.acquired < s.allowed
    · simp [h] at hrej
    · simp [h]
  · intro hge
    have hreset : s.resetIfExpired now
        = { s with last_update := now, acquired := 0 } := by
      unfold State.resetIfExpired
      simp [hge]
    unfold State.acquire at hrej ⊢
    rw [hreset] at hrej ⊢
    unfold State.tryConsume at hrej ⊢
    by_cases h : (0:Nat) < s.allowed
    · simp [h] at hrej
    · have : s.allowed = 0 := by omega
      simp [h, this]

/-- Witness for amended C6: an exhausted counter rejected inside the window
is left unchanged. -/
theorem C6_reject_leaves_state_unchanged_witness :
    ((State.mk ⟨0⟩ 1 ⟨5⟩ 1).acquire ⟨3⟩).2 = State.mk ⟨0⟩ 1 ⟨5⟩ 1 :=
  (C6_reject_leaves_state_unchanged (State.mk ⟨0⟩ 1 ⟨5⟩ 1) ⟨3⟩ (by decide)).1
    (by decide)

/-- Claim C7 evaluated at the overflowing input: the unchecked u64 addition
`Nanos + Nanos` (src/nanos.rs, `Self(self.0 + rhs.0)`) applied to
`a = 2^64 - 1` and `b = 1` yields `(a + b) mod 2^64 = 0` in release builds —
a silent wraparound, exactly what the claim says never happens. -/
theorem C7_nanos_add_wraps :
    Nanos.add ⟨U64SIZE - 1⟩ ⟨1⟩ = ⟨((U64SIZE - 1) + 1) % U64SIZE⟩ ∧
    Nanos.add ⟨U64SIZE - 1⟩ ⟨1⟩ = ⟨0⟩ := by
  refine ⟨rfl, ?_⟩
  unfold Nanos.add U64SIZE
  norm_num

/-- Counterexample to claim C8 as stated: for the real-instant implementation,
`t = 5` (5 ns after the domain minimum) minus `d = 10` underflows, and
`Instant::saturating_sub` (`checked_sub(..).unwrap_or(*self)`) returns the
original instant 5, not the domain minimum 0 the claim requires. -/
theorem C8_instant_saturating_sub_counterexample :
    Instant.saturating_sub 5 10 = 5 ∧ ¬ Instant.saturating_sub 5 10 = 0 := by
  decide

/-- Claim C8, amended: `saturating_sub` never wraps; when `t - d` is
representable both implementations return it exactly; on underflow the
simulated-nanosecond implementation clamps to the domain minimum 0, but the
real-instant implementation returns the original instant `t` unchanged
(not the domain minimum). -/
theorem C8_saturating_sub_amended (t d : Nat) (a b : Nanos) :
    Instant.saturating_sub t d = (if d ≤ t then t - d else t) ∧
    Nanos.saturating_sub a b = ⟨a.val - b.val⟩ ∧
    (a.val ≤ b.val → Nanos.saturating_sub a b = ⟨0⟩) := by
  refine ⟨?_, rfl, fun hle => ?_⟩
  · unfold Instant.saturating_sub Instant.checked_sub
    split <;> rfl
  · unfold Nanos.saturating_sub
    simp [Nat.sub_eq_zero_of_le hle]

/-- Witness for amended C8 at `t = 7, d = 3` and `a = 2, b = 5`. -/
theorem C8_saturating_sub_amended_witness :
    Instant.saturating_sub 7 3 = (if 3 ≤ 7 then 7 - 3 else 7) ∧
    Nanos.saturating_sub ⟨2⟩ ⟨5⟩ = ⟨2 - 5⟩ ∧
    Nanos.saturating_sub ⟨2⟩ ⟨5⟩ = ⟨0⟩ := by
  have h := C8_saturating_sub_amended 7 3 ⟨2⟩ ⟨5⟩
  exact ⟨h.1, h.2.1, h.2.2 (by decide)⟩

-- C10: a zero-length window resets on every call and never rejects.

lemma acquireSeq_zero_window (nows : List Nanos) :
    ∀ s : State, s.duration_nano = ⟨0⟩ → 1 ≤ s.allowed →
      (s.acquireSeq nows).1 = List.replicate nows.length true := by
  induction nows with
  | nil =>
      intro s _ _
      simp [State.acquireSeq]
  | cons now rest ih =>
      intro s hW hC
      have hreset : s.resetIfExpired now
          = { s with last_update := now, acquired := 0 } := by
        unfold State.resetIfExpired
        simp [hW]
      have hstep : s.acquire now
          = (true, { s with last_update := now, acquired := 1 }) := by
        unfold State.acquire
        rw [hreset]
        unfold State.tryConsume
        have : (0:Nat) < s.allowed := hC
        simp [this]
      have hrest := ih { s with last_update := now, acquired := 1 } hW hC
      simp only [State.acquireSeq, hstep]
      simp [hrest, List.replicate]

/-- Claim C10: a counter with `window_length = 0` and capacity at least 1
resets the window on every call (elapsed >= 0 always holds) and therefore
admits every call of every acquire sequence — it never rejects. -/
theorem C10_zero_window_never_rejects (s : State) (nows : List Nanos)
    (hW : s.duration_nano = ⟨0⟩) (hC : 1 ≤ s.allowed) :
    (s.acquireSeq nows).1 = List.replicate nows.length true ∧
    (∀ now : Nanos, s.resetIfExpired now
        = { s with last_update := now, acquired := 0 }) := by
  refine ⟨acquireSeq_zero_window nows s hW hC, fun now => ?_⟩
  unfold State.resetIfExpired
  simp [hW]

/-- Witness for C10: window 0, capacity 1, four calls at a constant reading
all admit. -/
theorem C10_zero_window_never_rejects_witness :
    ((State.mk ⟨0⟩ 0 ⟨0⟩ 1).acquireSeq [⟨0⟩, ⟨0⟩, ⟨0⟩, ⟨0⟩]).1
        = List.replicate 4 true ∧
    (State.mk ⟨0⟩ 0 ⟨0⟩ 1).resetIfExpired ⟨3⟩ = State.mk ⟨3⟩ 0 ⟨0⟩ 1 := by
  have h := C10_zero_window_never_rejects (State.mk ⟨0⟩ 0 ⟨0⟩ 1)
    [⟨0⟩, ⟨0⟩, ⟨0⟩, ⟨0⟩] rfl (by decide)
  exact ⟨h.1, h.2 ⟨3⟩⟩

-- C5: keyed registry lookup, delegation and frame conditions.

lemma findState_updateState_self (l : List (String × State)) (key : String)
    (s s' : State) (h : findState l key = some s) :
    findState (updateState l key s') key = some s' := by
  induction l with
  | nil => exact Option.noConfusion h
  | cons p rest ih =>
      obtain ⟨k, st⟩ := p
      by_cases hk : k = key
      · simp [findState, updateState, hk]
      · simp only [findState, updateState, if_neg hk] at h ⊢
        exact ih h

lemma findState_updateState_other (l : List (String × State)) (key k' : String)
    (s' : State) (hne : k' ≠ key) :
    findState (updateState l key s') k' = findState l k' := by
  induction l with
  | nil => simp [findState, updateState]
  | cons p rest ih =>
      obtain ⟨k, st⟩ := p
      by_cases hk : k = key
      · subst hk
        have : ¬ k = k' := fun h => hne (h ▸ rfl)
        simp [findState, updateState, this]
      · by_cases hk' : k = k'
        · subst hk'
          simp [findState, updateState, if_neg hk]
        · simp [findState, updateState, if_neg hk, if_neg hk', ih]

/-- Claim C5: `acquire_by_key` on an unregistered key returns `false` and
changes nothing at all (the whole registry is returned unchanged); on a
registered key it returns that counter's own acquire decision, leaves the
base counter untouched, stores the updated counter under that key, and every
other key's counter is exactly what it was before. -/
theorem C5_acquire_by_key_lookup_and_frame (rl : RateLimiter) (key : String)
    (now : Nanos) :
    (findState rl.inner_state key = none →
      rl.acquire_by_key key now = (false, rl)) ∧
    (∀ s : State, findState rl.inner_state key = some s →
      (rl.acquire_by_key key now).1 = (s.acquire now).1 ∧
      (rl.acquire_by_key key now).2.base_state = rl.base_state ∧
      findState (rl.acquire_by_key key now).2.inner_state key
          = some (s.acquire now).2 ∧
      (∀ k' : String, k' ≠ key →
        findState (rl.acquire_by_key key now).2.inner_state k'
            = findState rl.inner_state k')) := by
  constructor
  · intro hnone
    unfold RateLimiter.acquire_by_key
    rw [hnone]
  · intro s hsome
    unfold RateLimiter.acquire_by_key
    rw [hsome]
    refine ⟨rfl, rfl, ?_, fun k' hne => ?_⟩
    · exact findState_updateState_self rl.inner_state key s (s.acquire now).2 hsome
    · exact findState_updateState_other rl.inner_state key k' (s.acquire now).2 hne

/-- Witness for C5 on a one-entry registry: the unregistered key "b" rejects
with no change, the registered key "a" delegates, and key "c" is unaffected. -/
theorem C5_acquire_by_key_lookup_and_frame_witness :
    (RateLimiter.mk [("a", State.mk ⟨0⟩ 0 ⟨5⟩ 1)]
        (State.mk ⟨0⟩ 0 ⟨5⟩ 1)).acquire_by_key "b" ⟨0⟩
      = (false, RateLimiter.mk [("a", State.mk ⟨0⟩ 0 ⟨5⟩ 1)]
          (State.mk ⟨0⟩ 0 ⟨5⟩ 1)) ∧
    ((RateLimiter.mk [("a", State.mk ⟨0⟩ 0 ⟨5⟩ 1)]
        (State.mk ⟨0⟩ 0 ⟨5⟩ 1)).acquire_by_key "a" ⟨0⟩).1
      = ((State.mk ⟨0⟩ 0 ⟨5⟩ 1).acquire ⟨0⟩).1 ∧
    findState ((RateLimiter.mk [("a", State.mk ⟨0⟩ 0 ⟨5⟩ 1)]
        (State.mk ⟨0⟩ 0 ⟨5⟩ 1)).acquire_by_key "a" ⟨0⟩).2.inner_state "c"
      = findState (RateLimiter.mk [("a", State.mk ⟨0⟩ 0 ⟨5⟩ 1)]
          (State.mk ⟨0⟩ 0 ⟨5⟩ 1)).inner_state "c" := by
  refine ⟨(C5_acquire_by_key_lookup_and_frame
      (RateLimiter.mk [("a", State.mk ⟨0⟩ 0 ⟨5⟩ 1)] (State.mk ⟨0⟩ 0 ⟨5⟩ 1))
      "b" ⟨0⟩).1 (by decide),
    ((C5_acquire_by_key_lookup_and_frame
      (RateLimiter.mk [("a", State.mk ⟨0⟩ 0 ⟨5⟩ 1)] (State.mk ⟨0⟩ 0 ⟨5⟩ 1))
      "a" ⟨0⟩).2 (State.mk ⟨0⟩ 0 ⟨5⟩ 1) (by decide)).1,
    ((C5_acquire_by_key_lookup_and_frame
      (RateLimiter.mk [("a", State.mk ⟨0⟩ 0 ⟨5⟩ 1)] (State.mk ⟨0⟩ 0 ⟨5⟩ 1))
      "a" ⟨0⟩).2 (State.mk ⟨0⟩ 0 ⟨5⟩ 1) (by decide)).2.2.2 "c" (by decide)⟩

/-!
C9: the lock-free `FakeRelativeClock::advance` (src/clock.rs lines 59-71).
One advancing thread executes
  `prev = now.load(); loop { CAS(prev, prev + by) or prev = current }`.
We model a concurrent execution as an interleaving of the individual atomic
steps (the load, a failed CAS, a successful CAS); each step is atomic in the
Rust code, so any real execution linearises to such an interleaving.
`prev + by` is an unchecked u64 addition, taken modulo 2^64.
-/

/-- One advancing thread of the simulated clock: `remaining` advance calls
left to complete, and `pending = some prev` while it holds a loaded value
`prev` it is about to CAS with. -/
structure AdvThread where
  remaining : Nat
  pending : Option Nat
deriving DecidableEq, Repr

/-- Global state of the simulated clock and its advancing threads: the
atomic u64 (`value`, the `Arc<AtomicU64>` of `FakeRelativeClock`) and the
unordered collection of thread states. -/
structure ClockSys where
  value : Nat
  threads : Multiset AdvThread
deriving DecidableEq

/-- Atomic steps of `FakeRelativeClock::advance` with per-call amount `d`:
`load` reads the counter into `prev`; `casFail` is a failed
`compare_exchange_weak` (the loaded value is stale — including a spurious
failure, which the code treats identically), which re-reads the counter;
`casSucc` is a successful CAS, atomically replacing the counter `v` by
`(v + d) % 2^64` and completing one advance call. -/
inductive ClockStep (d : Nat) : ClockSys → ClockSys → Prop
  | load (v rem : Nat) (rest : Multiset AdvThread) (hr : 0 < rem) :
      ClockStep d ⟨v, AdvThread.mk rem none ::ₘ rest⟩
        ⟨v, AdvThread.mk rem (some v) ::ₘ rest⟩
  | casFail (v rem prev : Nat) (rest : Multiset AdvThread) :
      ClockStep d ⟨v, AdvThread.mk rem (some prev) ::ₘ rest⟩
        ⟨v, AdvThread.mk rem (some v) ::ₘ rest⟩
  | casSucc (v rem : Nat) (rest : Multiset AdvThread) :
      ClockStep d ⟨v, AdvThread.mk rem (some v) ::ₘ rest⟩
        ⟨(v + d) % U64SIZE, AdvThread.mk (rem - 1) none ::ₘ rest⟩

/-- Total number of advance calls still to complete across all threads. -/
def ClockSys.totalRem (s : ClockSys) : Nat :=
  (s.threads.map AdvThread.remaining).sum

/-- Invariant tying the atomic counter to the number of completed advances:
starting from `v0 < 2^64` with `R0` total advance calls of amount `d`, the
counter always equals `v0 + d * completed (mod 2^64)`, and a thread holding a
loaded value still has a call to finish. -/
def ClockInv (v0 d R0 : Nat) (s : ClockSys) : Prop :=
  s.totalRem ≤ R0 ∧
  s.value = (v0 + d * (R0 - s.totalRem)) % U64SIZE ∧
  ∀ t ∈ s.threads, t.pending.isSome = true → 0 < t.remaining

lemma ClockSys_totalRem_cons (v : Nat) (t : AdvThread) (rest : Multiset AdvThread) :
    (ClockSys.mk v (t ::ₘ rest)).totalRem
      = t.remaining + (rest.map AdvThread.remaining).sum := by
  simp [ClockSys.totalRem, Multiset.map_cons, Multiset.sum_cons]

lemma ClockInv_step (v0 d R0 : Nat) (s s' : ClockSys)
    (hstep : ClockStep d s s') (hinv : ClockInv v0 d R0 s) :
    ClockInv v0 d R0 s' := by
  obtain ⟨hle, hval, hpend⟩ := hinv
  cases hstep with
  | load v rem rest hr =>
      refine ⟨?_, ?_, fun t ht hsome => ?_⟩
      · simpa [ClockSys.totalRem] using hle
      · simpa [ClockSys.totalRem] using hval
      · rcases Multiset.mem_cons.mp ht with h | h
        · rw [h]; exact hr
        · exact hpend t (Multiset.mem_cons_of_mem h) hsome
  | casFail v rem prev rest =>
      have hr : 0 < rem :=
        hpend (AdvThread.mk rem (some prev)) (Multiset.mem_cons_self _ _) rfl
      refine ⟨?_, ?_, fun t ht hsome => ?_⟩
      · simpa [ClockSys.totalRem] using hle
      · simpa [ClockSys.totalRem] using hval
      · rcases Multiset.mem_cons.mp ht with h | h
        · rw [h]; exact hr
        · exact hpend t (Multiset.mem_cons_of_mem h) hsome
  | casSucc v rem rest =>
      have hr : 0 < rem :=
        hpend (AdvThread.mk rem (some v)) (Multiset.mem_cons_self _ _) rfl
      simp only [ClockSys.totalRem, Multiset.map_cons, Multiset.sum_cons]
        at hle hval
      refine ⟨?_, ?_, fun t ht hsome => ?_⟩
      · simp only [ClockSys.totalRem, Multiset.map_cons, Multiset.sum_cons]
        omega
      · simp only [ClockSys.totalRem, Multiset.map_cons, Multiset.sum_cons]
        rw [hval, Nat.mod_add_mod]
        congr 1
        have h1 : R0 - (rem - 1 + (rest.map AdvThread.remaining).sum)
            = (R0 - (rem + (rest.map AdvThread.remaining).sum)) + 1 := by
          omega
        rw [h1, Nat.mul_succ]
        omega
      · rcases Multiset.mem_cons.mp ht with h | h
        · rw [h] at hsome
          exact absurd hsome (by simp)
        · exact hpend t (Multiset.mem_cons_of_mem h) hsome

lemma ClockInv_reach (v0 d R0 : Nat) (s s' : ClockSys)
    (h : Relation.ReflTransGen (ClockStep d) s s')
    (hinv : ClockInv v0 d R0 s) : ClockInv v0 d R0 s' := by
  induction h with
  | refl => exact hinv
  | tail _ hstep ih => exact ClockInv_step v0 d R0 _ _ hstep ih

lemma ClockInv_init (v0 d N M : Nat) (hv0 : v0 < U64SIZE) :
    ClockInv v0 d (N * M)
      (ClockSys.mk v0 (Multiset.replicate N (AdvThread.mk M none))) := by
  have htot : (ClockSys.mk v0
      (Multiset.replicate N (AdvThread.mk M none))).totalRem = N * M := by
    simp [ClockSys.totalRem, Multiset.map_replicate, Multiset.sum_replicate,
      smul_eq_mul]
  refine ⟨by rw [htot], ?_, ?_⟩
  · rw [htot]
    simp [Nat.mod_eq_of_lt hv0]
  · intro t ht hsome
    have := Multiset.eq_of_mem_replicate ht
    rw [this] at hsome
    exact absurd hsome (by simp)

/-- Claim C9: concurrent `advance` calls on the simulated clock are
lost-update-free. If N threads each perform M advance calls of amount `d`
(each call a load followed by a compare-and-swap retry loop, interleaved
arbitrarily at the granularity of the atomic operations), then once every
thread has finished, the counter read by `now()` equals the initial value
plus exactly `N * M * d`, provided that sum stays within u64 range. -/
theorem C9_concurrent_advance_exact (v0 d N M : Nat) (s' : ClockSys)
    (hv0 : v0 < U64SIZE) (hbound : v0 + N * M * d < U64SIZE)
    (hreach : Relation.ReflTransGen (ClockStep d)
      (ClockSys.mk v0 (Multiset.replicate N (AdvThread.mk M none))) s')
    (hdone : ∀ t ∈ s'.threads, t.remaining = 0) :
    s'.value = v0 + N * M * d := by
  have hinv := ClockInv_reach v0 d (N * M) _ s' hreach (ClockInv_init v0 d N M hv0)
  have htot : s'.totalRem = 0 := by
    unfold ClockSys.totalRem
    apply Multiset.sum_eq_zero
    intro x hx
    obtain ⟨t, ht, rfl⟩ := Multiset.mem_map.mp hx
    exact hdone t ht
  have hval := hinv.2.1
  rw [htot, Nat.sub_zero] at hval
  have hcomm : d * (N * M) = N * M * d := by ring
  rw [hval, hcomm, Nat.mod_eq_of_lt hbound]

/-- Witness for C9: one thread, one advance of 1 ns from 0; the explicit
interleaving `load; casSucc` ends with the counter at 1. -/
theorem C9_concurrent_advance_exact_witness :
    (ClockSys.mk ((0 + 1) % U64SIZE)
        (AdvThread.mk (1 - 1) none ::ₘ 0)).value = 0 + 1 * 1 * 1 := by
  apply C9_concurrent_advance_exact 0 1 1 1
  · norm_num [U64SIZE]
  · norm_num [U64SIZE]
  · have hrepl : Multiset.replicate 1 (AdvThread.mk 1 none)
        = AdvThread.mk 1 none ::ₘ 0 := by
      rw [Multiset.replicate_one, ← Multiset.cons_zero]
    rw [hrepl]
    exact Relation.ReflTransGen.head (ClockStep.load 0 1 0 (by norm_num))
      (Relation.ReflTransGen.single (ClockStep.casSucc 0 1 0))
  · intro t ht
    have ht' : t ∈ (AdvThread.mk (1 - 1) none ::ₘ (0 : Multiset AdvThread)) := ht
    rcases Multiset.mem_cons.mp ht' with h | h
    · simp [h]
    · exact absurd h (Multiset.not_mem_zero t)
